import Mathlib

/-!
# Verification of the hw4.py single-domain web crawler

A shallow embedding of `src/hw4.py` (URL classifier, link ranker, link
extractor, information extractor, crawl engine) together with theorems
settling the specification's claims about it.

Python strings are embedded as `List Char` (`Str` below): Python indexes and
slices strings by code point, which matches `List` operations exactly and
keeps every definition executable. External collaborators keep the narrow
contract the spec gives them: `urllib.parse.urljoin` is a function parameter,
`urllib.request.urlopen` together with `BeautifulSoup`'s anchor walk is a
fetch oracle `Str → Option Page`, and `re` is embedded by a small
backtracking matcher covering exactly the constructs of the four patterns
the source uses.
-/

namespace HW4

/-- A Python string, as its list of characters. -/
abbrev Str := List Char

/-- Shorthand for writing `Str` literals. -/
def pstr (s : String) : Str := s.toList

/-! ## URL classifier (hw4.py lines 108-147) -/

/-- `is_http_request(url)` (hw4.py 108-114). The Python function returns
`True` or falls off the end returning `None`; `None` is falsy, modelled as
`false`. The `elif` belongs to the outer `if`: a string of length > 8 whose
character at index 4 is `'s'` but which does not start with `https://` falls
through without ever checking for `http://`. -/
def is_http_request (url : Str) : Bool :=
  if url.length > 8 && url[4]? == some 's' then
    url.take 8 == pstr "https://"
  else if url.length > 7 then
    url.take 7 == pstr "http://"
  else
    false

/-- `strip_http_request(url)` (hw4.py 116-122). The source's second branch
reads `elif is_http_request:` — the function object itself, always truthy —
so the final `return url` (commented `# already stripped`) is unreachable,
and every url not taken by the first branch is sliced `url[7:len(url)]`. -/
def strip_http_request (url : Str) : Str :=
  if is_http_request url && url[4]? == some 's' then
    url.drop 8
  else
    url.drop 7

/-- `strip_www(url)` (hw4.py 124-128). -/
def strip_www (url : Str) : Str :=
  if url.length > 4 && url[0]? == some 'w' && url[1]? == some 'w'
      && url[2]? == some 'w' && url[3]? == some '.' then
    url.drop 4
  else
    url

/-- `get_domain(url)` (hw4.py 130-140): the while loop collects the
characters of the stripped url up to the first `/` (or the end). -/
def get_domain (url : Str) : Str :=
  (strip_www (strip_http_request url)).takeWhile (fun c => c != '/')

/-- `is_non_local(url, stripped_root_link)` (hw4.py 142-147); falls off the
end returning `None` (falsy) when `url` carries no recognized scheme. -/
def is_non_local (url stripped_root_link : Str) : Bool :=
  is_http_request url && strip_http_request url != stripped_root_link

/-! ## Link ranker (hw4.py lines 72-85) -/

/-- `rank_link(link)` (hw4.py 72-85): ten times the number of `/` characters
in the stripped url plus the length of the display text. -/
def rank_link (link : Str × Str) : Nat :=
  10 * (strip_http_request link.1).count '/' + link.2.length

/-! ## Link extractor (hw4.py lines 13-40) -/

/-- ASCII whitespace: Python's `\s` restricted to ASCII (the `re` module also
matches a few unicode spaces with `str` patterns; the ASCII set is what every
claim exercises). -/
def isPyWs (c : Char) : Bool :=
  c == ' ' || c == '\t' || c == '\n' || c == '\r' || c == '\x0b' || c == '\x0c'

/-- `re.sub('\s+', ' ', text)` (hw4.py 21 and 34): every maximal run of
whitespace becomes a single space. The flag records whether the previous
character was part of a whitespace run. -/
def collapseWsAux : Bool → Str → Str
  | _, [] => []
  | inRun, c :: rest =>
    if isPyWs c then
      if inRun then collapseWsAux true rest else ' ' :: collapseWsAux true rest
    else
      c :: collapseWsAux false rest

def collapseWs (s : Str) : Str := collapseWsAux false s

/-- Python `str.strip()`: remove leading and trailing whitespace. -/
def pyStrip (s : Str) : Str :=
  ((s.dropWhile isPyWs).reverse.dropWhile isPyWs).reverse

/-- One `<a>` element as the HTML parse collaborator exposes it to the
extraction loops: its `href` attribute (`none` = attribute absent) and its
string content (`link.string`, `none` when the anchor has no single string
child). -/
structure Anchor where
  href : Option Str
  text : Option Str

/-- The per-anchor body shared verbatim by `parse_links` (hw4.py 15-22) and
`parse_links_sorted` (hw4.py 28-35): skip an anchor whose `href` is falsy
(absent or the empty string), replace a falsy `link.string` by `''`,
normalize the text's whitespace, and resolve the href against the base url.
`urljoin` (`urllib.parse.urljoin`) is an external collaborator passed as a
function. -/
def processAnchor (urljoin : Str → Str → Str) (root : Str) (a : Anchor) :
    Option (Str × Str) :=
  match a.href with
  | none => none
  | some href =>
    if href.isEmpty then none
    else some (urljoin root href, pyStrip (collapseWs (a.text.getD [])))

/-- `parse_links(root, html)` (hw4.py 13-22), as the list its generator
yields over the document's anchors in document order. -/
def parse_links (urljoin : Str → Str → Str) (root : Str)
    (anchors : List Anchor) : List (Str × Str) :=
  anchors.filterMap (processAnchor urljoin root)

/-- The order `urls.sort(reverse=True, key=rank_link)` sorts by: `a` may
come before `b` iff `a`'s rank is at least `b`'s. -/
def rankGE (a b : Str × Str) : Prop := rank_link b ≤ rank_link a

instance : DecidableRel rankGE :=
  fun a b => Nat.decLe (rank_link b) (rank_link a)

instance : IsTotal (Str × Str) rankGE :=
  ⟨fun a b => Nat.le_total (rank_link b) (rank_link a)⟩

instance : IsTrans (Str × Str) rankGE := ⟨fun _ _ _ h1 h2 => le_trans h2 h1⟩

/-- `parse_links_sorted(root, html)` (hw4.py 24-40): the same extraction loop
collected into a list, then `urls.sort(reverse=True, key=rank_link)` —
Python's stable sort, descending by rank, ties kept in discovery order —
embedded as the stable `List.insertionSort` over `rankGE` (all stable sorts
of a list under one total preorder produce the same list). -/
def parse_links_sorted (urljoin : Str → Str → Str) (root : Str)
    (anchors : List Anchor) : List (Str × Str) :=
  (parse_links urljoin root anchors).insertionSort rankGE

/-! ## The `re` patterns of `extract_information` (hw4.py lines 220-242)

The source applies four regular expressions with `re.findall`. They use only
literal characters and repeated character classes (greedy `+`, `{n}`,
`{2,3}`, `?`; one lazy `+?`), with no alternation and no nested groups, so a
small backtracking matcher embeds `re`'s semantics for them exactly:
sequencing backtracks through the repetition counts of each class, greedy
repetition tries longer counts first, lazy repetition shorter first, and
`findall` scans left to right emitting non-overlapping leftmost matches. -/

/-- One atom of such a pattern: a literal character, or a character class
repeated between `lo` and `hi` times (`none` = unbounded), greedy or lazy. -/
inductive RAtom where
  | lit (c : Char)
  | cls (p : Char → Bool) (lo : Nat) (hi : Option Nat) (lazyRep : Bool)

/-- Length of the leftmost match of the atom sequence at the head of `s`,
`none` when there is no match here. A repeated class consumes some prefix of
its maximal run; the candidate repetition counts are tried in backtracking
order (ascending when lazy, descending when greedy) and the first one under
which the rest of the pattern matches wins. -/
def reMatch : List RAtom → Str → Option Nat
  | [], _ => some 0
  | .lit _ :: _, [] => none
  | .lit c :: ps, x :: xs =>
    if x == c then (reMatch ps xs).map (· + 1) else none
  | .cls p lo hi lazyRep :: ps, s =>
    let run := (s.takeWhile p).length
    let top := match hi with | none => run | some h => Nat.min h run
    if lo > top then none
    else
      let counts :=
        if lazyRep then List.range' lo (top - lo + 1)
        else (List.range' lo (top - lo + 1)).reverse
      counts.findSome? (fun k => (reMatch ps (s.drop k)).map (k + ·))

/-- `re.findall(pat, s)` for these patterns: at each position emit the
leftmost match and resume right after it, otherwise move one character on.
`fuel` starts at `s.length + 1`; every step drops at least one character. -/
def reFindAllAux (pat : List RAtom) : Nat → Str → List Str
  | 0, _ => []
  | _, [] => []
  | fuel + 1, s =>
    match reMatch pat s with
    | some n => s.take n :: reFindAllAux pat fuel (s.drop (Nat.max n 1))
    | none => reFindAllAux pat fuel (s.drop 1)

def reFindAll (pat : List RAtom) (s : Str) : List Str :=
  reFindAllAux pat (s.length + 1) s

/-- `\d` (ASCII). -/
def isDigitC (c : Char) : Bool := '0' ≤ c && c ≤ '9'

/-- `[a-zA-Z]`. -/
def isAlphaC (c : Char) : Bool := ('a' ≤ c && c ≤ 'z') || ('A' ≤ c && c ≤ 'Z')

/-- `[a-zA-Z0-9_\-\.]`, the username/domain class of the EMAIL pattern. -/
def isEmailC (c : Char) : Bool :=
  isAlphaC c || isDigitC c || c == '_' || c == '-' || c == '.'

/-- `[a-zA-z]` exactly as written in the source's ADDRESS pattern: the range
runs from `A` to `z`, so it also contains `[ \ ] ^ _` and the backquote. -/
def isAzTypoC (c : Char) : Bool :=
  ('a' ≤ c && c ≤ 'z') || ('A' ≤ c && c ≤ 'z')

/-- `[a-zA-Z.]`. -/
def isAddrWordC (c : Char) : Bool := isAlphaC c || c == '.'

/-- A single `\d`. -/
def d1 : RAtom := .cls isDigitC 1 (some 1) false

/-- `\d\d\d-\d\d\d-\d\d\d\d` (hw4.py 227). -/
def phonePat1 : List RAtom :=
  [d1, d1, d1, .lit '-', d1, d1, d1, .lit '-', d1, d1, d1, d1]

/-- `\(\d\d\d\) \d\d\d-\d\d\d\d` (hw4.py 231). -/
def phonePat2 : List RAtom :=
  [.lit '(', d1, d1, d1, .lit ')', .lit ' ', d1, d1, d1, .lit '-',
   d1, d1, d1, d1]

/-- `[a-zA-Z0-9_\-\.]+@[a-zA-Z0-9_\-\.]+\.[a-zA-Z]{2,3}` (hw4.py 236); the
group around the whole pattern makes `findall` return the whole match. -/
def emailPat : List RAtom :=
  [.cls isEmailC 1 none false, .lit '@', .cls isEmailC 1 none false,
   .lit '.', .cls isAlphaC 2 (some 3) false]

/-- `[a-zA-Z]+ ?[a-zA-z]+?, [a-zA-Z.]+ [0-9]{5}` (hw4.py 239). -/
def addressPat : List RAtom :=
  [.cls isAlphaC 1 none false, .cls (fun c => c == ' ') 0 (some 1) false,
   .cls isAzTypoC 1 none true, .lit ',', .lit ' ',
   .cls isAddrWordC 1 none false, .lit ' ', .cls isDigitC 5 (some 5) false]

/-- A finding: (source url, category, matched text). -/
abbrev Finding := Str × Str × Str

/-- `extract_information(address, html)` (hw4.py 220-242): the four scans in
pattern order, match order within each. The source scans `str(html)`,
BeautifulSoup's re-serialization of the parsed markup; that serialization
belongs to the parse collaborator, and the body text handed to the scans is
taken as given. -/
def extract_information (address html : Str) : List Finding :=
  ((reFindAll phonePat1 html).map (fun m => (address, pstr "PHONE", m)))
    ++ ((reFindAll phonePat2 html).map (fun m => (address, pstr "PHONE", m)))
    ++ ((reFindAll emailPat html).map (fun m => (address, pstr "EMAIL", m)))
    ++ ((reFindAll addressPat html).map (fun m => (address, pstr "ADDRESS", m)))

/-! ## Crawl engine (hw4.py lines 150-217) -/

/-- The `content_types` dict (hw4.py 163-171), keys exactly as the source
writes them — note the trailing colon in `'pdf:'` and `'zip:'`. -/
def content_types : List (Str × List Str) :=
  [(pstr "text", [pstr "text/html; charset=UTF-8", pstr "text/plain; charset=UTF-8"]),
   (pstr "html", [pstr "text/html; charset=UTF-8"]),
   (pstr "pdf:", [pstr "application/pdf"]),
   (pstr "zip:", [pstr "application/zip"]),
   (pstr "jpeg", [pstr "image/jpeg"]),
   (pstr "png", [pstr "image/png"]),
   (pstr "pptx", [pstr "application/vnd.ms-powerpoint"])]

/-- Python dict indexing `content_types[k]`: `none` models the `KeyError`. -/
def dictLookup (k : Str) : Option (List Str) :=
  (content_types.find? (fun e => e.1 == k)).map (fun e => e.2)

/-- Python `str.lower()` on ASCII. -/
def pyLower (s : Str) : Str :=
  s.map (fun c => if 'A' ≤ c && c ≤ 'Z' then Char.ofNat (c.toNat + 32) else c)

/-- The content-type filter loop of `crawl` (hw4.py 180-189), run when
`wanted_content` is non-empty. `none` models the `KeyError` raised when some
wanted type's lowercased name is not a key of `content_types` — the loop has
no `break`, so every wanted type is looked up and any missing key raises,
whatever the earlier iterations matched; `some b` is the final value of
`content_matches`, true iff some wanted type's accepted header list contains
the reported header verbatim. -/
def content_matches (wanted : List Str) (headers : Str) : Option Bool :=
  if wanted.any (fun c => (dictLookup (pyLower c)).isNone) then none
  else some (wanted.any
    (fun c => ((dictLookup (pyLower c)).getD []).contains headers))

/-- What the fetch and parse collaborators hand `crawl` for one url: the
reported `Content-Type` header, the body text the information extractor
scans, and the anchor elements of the parsed document in document order.
`fetch url = none` models `request.urlopen` (or reading the response)
raising. -/
structure Page where
  headers : Str
  html : Str
  anchors : List Anchor

/-- One iteration of the link loop of `crawl` (hw4.py 200-212): `acc` is
`links_added_to_queue`; a link is appended iff it is not already in `acc`,
`is_non_local` holds against the current page's stripped url, it is not in
`visited`, and — when `within_domain` — its domain equals the root's. -/
def enqueueStep (within_domain : Bool) (root_domain stripped_root_link : Str)
    (visited : List Str) (acc : List Str) (lt : Str × Str) : List Str :=
  if lt.1 ∉ acc ∧ is_non_local lt.1 stripped_root_link
      ∧ lt.1 ∉ visited
      ∧ (within_domain = false ∨ get_domain lt.1 = root_domain) then
    acc ++ [lt.1]
  else
    acc

/-- The whole link loop: the page's `links_added_to_queue`, which is also the
list of urls `queue.put` receives from this page, in order. -/
def enqueueLinks (within_domain : Bool) (root_domain stripped_root_link : Str)
    (visited : List Str) (links : List (Str × Str)) : List Str :=
  links.foldl (enqueueStep within_domain root_domain stripped_root_link visited) []

/-- The `while not queue.empty()` loop of `crawl` (hw4.py 173-216), with the
FIFO queue explicit and fuel for the loop (the source loops until the queue
empties; each theorem below holds for every fuel or uses fuel ample enough
that the queue empties, so the fuel-exhausted branch is never taken on the
fixtures). A popped url is abandoned — nothing recorded, nothing enqueued —
when the fetch raises or the content-type lookup raises `KeyError`, matching
the `except Exception` clause; it is skipped, already counted neither
visited nor extracted, when the filter does not match (`continue`). -/
def crawl_loop (urljoin : Str → Str → Str) (fetch : Str → Option Page)
    (wanted_content : List Str) (within_domain : Bool) (root_domain : Str) :
    Nat → List Str → List Str → List Finding → List Str × List Finding
  | 0, _, visited, extracted => (visited, extracted)
  | _ + 1, [], visited, extracted => (visited, extracted)
  | fuel + 1, url :: rest, visited, extracted =>
    match fetch url with
    | none =>
      crawl_loop urljoin fetch wanted_content within_domain root_domain
        fuel rest visited extracted
    | some page =>
      match
        if wanted_content.length > 0 then content_matches wanted_content page.headers
        else some true
      with
      | none =>
        crawl_loop urljoin fetch wanted_content within_domain root_domain
          fuel rest visited extracted
      | some false =>
        crawl_loop urljoin fetch wanted_content within_domain root_domain
          fuel rest visited extracted
      | some true =>
        let visited' := visited ++ [url]
        let extracted' := extracted ++ extract_information url page.html
        let newLinks := enqueueLinks within_domain root_domain
          (strip_http_request url) visited'
          (parse_links_sorted urljoin url page.anchors)
        crawl_loop urljoin fetch wanted_content within_domain root_domain
          fuel (rest ++ newLinks) visited' extracted'

/-- `crawl(root, wanted_content, within_domain)` (hw4.py 150-217): computes
`root_domain` once, starts from the queue holding `root` and empty
accumulators, and returns `(visited, extracted)`. -/
def crawl (urljoin : Str → Str → Str) (fetch : Str → Option Page) (fuel : Nat)
    (root : Str) (wanted_content : List Str) (within_domain : Bool) :
    List Str × List Finding :=
  crawl_loop urljoin fetch wanted_content within_domain (get_domain root)
    fuel [root] [] []

/-! ## Fixtures for the claims about `crawl`

Every href in the fixtures is an absolute `http://` url, on which
`urllib.parse.urljoin` returns the href unchanged. -/

/-- `urllib.parse.urljoin` restricted to absolute hrefs. -/
def urljoinAbs (_ : Str) (href : Str) : Str := href

/-- An anchor with an absolute href and no string content. -/
def anc (href : String) : Anchor := ⟨some href.toList, none⟩

/-- The standard HTML header of the fixtures. -/
def htmlHdr : Str := pstr "text/html; charset=UTF-8"

/-- A fixture page with no body text. -/
def mkPage (hdr : Str) (hrefs : List String) : Page :=
  ⟨hdr, [], hrefs.map anc⟩

/-- Four in-domain pages: the root links `/a` and `/b`, and both `/a` and
`/b` link the same page `/q`, which `/q` being popped twice will expose. -/
def fetchC1 (u : Str) : Option Page :=
  if u == pstr "http://a.com/" then
    some (mkPage htmlHdr ["http://a.com/a", "http://a.com/b"])
  else if u == pstr "http://a.com/a" then
    some (mkPage htmlHdr ["http://a.com/q"])
  else if u == pstr "http://a.com/b" then
    some (mkPage htmlHdr ["http://a.com/q"])
  else if u == pstr "http://a.com/q" then
    some (mkPage htmlHdr [])
  else none

/-- The root fetches as a PDF document. -/
def fetchC3 (u : Str) : Option Page :=
  if u == pstr "http://a.com/" then some (mkPage (pstr "application/pdf") [])
  else none

/-- Two-page fixture: the root links one page of its own domain and one of
another; both targets are fetchable. -/
def fetchC4 (u : Str) : Option Page :=
  if u == pstr "http://a.com/" then
    some (mkPage htmlHdr ["http://a.com/p1", "http://b.com/x"])
  else if u == pstr "http://a.com/p1" then
    some (mkPage htmlHdr [])
  else if u == pstr "http://b.com/x" then
    some (mkPage htmlHdr [])
  else none

/-- The root links a page whose fetch raises and one that fetches fine. -/
def fetchC5 (u : Str) : Option Page :=
  if u == pstr "http://a.com/" then
    some (mkPage htmlHdr ["http://a.com/bad", "http://a.com/b"])
  else if u == pstr "http://a.com/b" then
    some (mkPage htmlHdr [])
  else none

/-- The root reports `text/html` with no charset parameter. -/
def fetchC10a (u : Str) : Option Page :=
  if u == pstr "http://a.com/" then some (mkPage (pstr "text/html") [])
  else none

/-- The root reports exactly the hardcoded HTML signature. -/
def fetchC10b (u : Str) : Option Page :=
  if u == pstr "http://a.com/" then some (mkPage htmlHdr [])
  else none

/-- The `stripScheme` the claims describe, worded as the spec words it and
named `_spec` to set it against the source's `strip_http_request`: remove a
leading `https://` or `http://` and otherwise return the input unchanged. -/
def stripScheme_spec (url : Str) : Str :=
  if url.take 8 == pstr "https://" then url.drop 8
  else if url.take 7 == pstr "http://" then url.drop 7
  else url

end HW4


namespace HW4

/-! ## Helper lemmas -/

/-- Invariant of the link loop: `links_added_to_queue` stays duplicate-free
and never holds a url of the visited list. -/
theorem enqueue_fold_fresh (wd : Bool) (rd sr : Str) (visited : List Str) :
    ∀ (links : List (Str × Str)) (acc : List Str),
      acc.Nodup → (∀ u ∈ acc, u ∉ visited) →
      (links.foldl (enqueueStep wd rd sr visited) acc).Nodup ∧
      ∀ u ∈ links.foldl (enqueueStep wd rd sr visited) acc, u ∉ visited := by
  intro links
  induction links with
  | nil => intro acc h1 h2; exact ⟨h1, h2⟩
  | cons l ls ih =>
    intro acc h1 h2
    rw [List.foldl_cons]
    apply ih
    · unfold enqueueStep
      split
      · next hc =>
          have hni : l.1 ∉ acc := hc.1
          simp [List.nodup_append, h1, hni]
      · exact h1
    · unfold enqueueStep
      split
      · next hc =>
          intro u hu
          rcases List.mem_append.mp hu with h' | h'
          · exact h2 u h'
          · have : u = l.1 := by simpa using h'
            rw [this]; exact hc.2.2.1
      · exact h2

/-- Every url the link loop appends under `within_domain = true` has the
root's domain. -/
theorem enqueue_fold_domain (rd sr : Str) (visited : List Str) :
    ∀ (links : List (Str × Str)) (acc : List Str) (u : Str),
      u ∈ links.foldl (enqueueStep true rd sr visited) acc →
      u ∈ acc ∨ get_domain u = rd := by
  intro links
  induction links with
  | nil => intro acc u hu; exact .inl hu
  | cons l ls ih =>
    intro acc u hu
    rw [List.foldl_cons] at hu
    rcases ih _ u hu with h | h
    · unfold enqueueStep at h
      split at h
      · next hc =>
          rcases List.mem_append.mp h with h' | h'
          · exact .inl h'
          · have he : u = l.1 := by simpa using h'
            rcases hc.2.2.2 with hwd | hdom
            · cases hwd
            · rw [he]; exact .inr hdom
      · exact .inl h
    · exact .inr h

/-- Loop invariant under `within_domain = true`: a url of the returned
visited list was already visited, was already in the frontier, or has the
root's domain. -/
theorem crawl_loop_visited_domain (uj : Str → Str → Str)
    (fetch : Str → Option Page) (wanted : List Str) (rd : Str) :
    ∀ (fuel : Nat) (queue visited : List Str) (extracted : List Finding)
      (u : Str),
      u ∈ (crawl_loop uj fetch wanted true rd fuel queue visited extracted).1 →
      u ∈ visited ∨ u ∈ queue ∨ get_domain u = rd := by
  intro fuel
  induction fuel with
  | zero =>
    intro queue visited ex u hu
    simp only [crawl_loop] at hu
    exact .inl hu
  | succ n ih =>
    intro queue visited ex u hu
    rcases queue with _ | ⟨url, rest⟩
    · simp only [crawl_loop] at hu
      exact .inl hu
    · simp only [crawl_loop] at hu
      split at hu
      · rcases ih rest visited ex u hu with h | h | h
        · exact .inl h
        · exact .inr (.inl (List.mem_cons_of_mem url h))
        · exact .inr (.inr h)
      · split at hu
        · rcases ih rest visited ex u hu with h | h | h
          · exact .inl h
          · exact .inr (.inl (List.mem_cons_of_mem url h))
          · exact .inr (.inr h)
        · rcases ih rest visited ex u hu with h | h | h
          · exact .inl h
          · exact .inr (.inl (List.mem_cons_of_mem url h))
          · exact .inr (.inr h)
        · rcases ih _ _ _ u hu with h | h | h
          · rcases List.mem_append.mp h with h' | h'
            · exact .inl h'
            · have : u = url := by simpa using h'
              exact .inr (.inl (this ▸ List.mem_cons_self url rest))
          · rcases List.mem_append.mp h with h' | h'
            · exact .inr (.inl (List.mem_cons_of_mem url h'))
            · rcases enqueue_fold_domain rd _ _ _ _ u h' with h'' | h''
              · cases h''
              · exact .inr (.inr h'')
          · exact .inr (.inr h)

end HW4

namespace HW4

/-! ## The claims -/

/-- C1, counterexample: in the four-page fixture the pages `/a` and `/b`
both link `/q`; `/q` is enqueued from each page (at that moment it is in
neither page's `links_added_to_queue` nor yet in `visited`), so it is popped,
fetched and appended to the visited list twice — the visited set does not
prevent re-fetching a url discovered on several pages before its first pop,
and the returned visited list has a duplicate. -/
theorem C1_counterexample :
    (crawl urljoinAbs fetchC1 10 (pstr "http://a.com/") [] true).1
      = [pstr "http://a.com/", pstr "http://a.com/a", pstr "http://a.com/b",
         pstr "http://a.com/q", pstr "http://a.com/q"] ∧
    ¬ (crawl urljoinAbs fetchC1 10 (pstr "http://a.com/") [] true).1.Nodup := by
  constructor
  · decide
  · decide

/-- C1 (amended): the dedup guards the crawl does have hold — while one page
is processed, `links_added_to_queue` stays duplicate-free, so a link found
twice on that page is enqueued at most once from it, and no url already on
the visited list is ever enqueued; but a url discovered on several different
pages before it is first popped can be fetched more than once and then
appears more than once in the returned visited list. -/
theorem C1_amended (wd : Bool) (rd sr : Str) (visited : List Str)
    (links : List (Str × Str)) :
    (enqueueLinks wd rd sr visited links).Nodup ∧
    ∀ u ∈ enqueueLinks wd rd sr visited links, u ∉ visited := by
  unfold enqueueLinks
  exact enqueue_fold_fresh wd rd sr visited links [] List.nodup_nil (by simp)

/-- C2, the code at the failing inputs: the claim has `strip_http_request`
return a url without the scheme prefix unchanged, and hence be idempotent;
but the dead-branch slip (`elif is_http_request:` is always truthy) slices
seven characters off every url not starting with a recognized scheme, so an
already-stripped url is mangled and idempotence fails. -/
theorem C2_strip_not_passthrough :
    strip_http_request (pstr "a.com") = [] ∧
    strip_http_request (pstr "https://a.com") = pstr "a.com" ∧
    strip_http_request (strip_http_request (pstr "https://a.com"))
      ≠ strip_http_request (pstr "https://a.com") := by
  refine ⟨by decide, by decide, by decide⟩

/-- C3, the code at the failing input: with `"pdf"` (or `"zip"`) among the
wanted content types, `content_types[content.lower()]` raises `KeyError` —
the dict's keys are `'pdf:'` and `'zip:'`, trailing colon — so a fetched
`application/pdf` page never passes the filter: the exception abandons the
url, and the crawl of a root reporting `application/pdf` with wanted type
`pdf` records nothing at all. -/
theorem C3_pdf_key_error :
    dictLookup (pstr "pdf") = none ∧
    dictLookup (pstr "zip") = none ∧
    content_matches [pstr "pdf"] (pstr "application/pdf") = none ∧
    content_matches [pstr "zip"] (pstr "application/zip") = none ∧
    crawl urljoinAbs fetchC3 10 (pstr "http://a.com/") [pstr "pdf"] true
      = ([], []) := by
  refine ⟨by decide, by decide, by decide, by decide, by decide⟩

/-- C4: with `within_domain` true the engine never enqueues a url whose
domain differs from the root's — every url the link loop adds to the queue
satisfies `get_domain u = root_domain` (first conjunct), hence every url the
crawl visits is the root itself or has the root's domain (second conjunct) —
and crawling the two-page fixture (the root links one page of its own domain
and one external page) visits exactly the root and the internal page, never
the external one (third conjunct). -/
theorem C4_within_domain :
    (∀ (rd sr : Str) (visited : List Str) (links : List (Str × Str))
        (u : Str), u ∈ enqueueLinks true rd sr visited links →
        get_domain u = rd) ∧
    (∀ (uj : Str → Str → Str) (fetch : Str → Option Page)
        (wanted : List Str) (fuel : Nat) (root u : Str),
        u ∈ (crawl uj fetch fuel root wanted true).1 →
        u = root ∨ get_domain u = get_domain root) ∧
    (crawl urljoinAbs fetchC4 10 (pstr "http://a.com/") [] true).1
      = [pstr "http://a.com/", pstr "http://a.com/p1"] := by
  refine ⟨?_, ?_, by decide⟩
  · intro rd sr visited links u hu
    rcases enqueue_fold_domain rd sr visited links [] u hu with h | h
    · cases h
    · exact h
  · intro uj fetch wanted fuel root u hu
    unfold crawl at hu
    rcases crawl_loop_visited_domain uj fetch wanted (get_domain root) fuel
        [root] [] [] u hu with h | h | h
    · cases h
    · left; simpa using h
    · right; exact h

/-- C5: a fetch failure on a popped url leaves the crawl exactly where it
would be had that url never been at the head of the frontier — identical
visited list and findings (the url adds nothing to either), nothing of its
links enqueued, every remaining frontier entry processed identically, and
the loop returning normally (first conjunct, an equation on the loop); on
the fixture whose root links a page whose fetch raises and then a good page,
the crawl returns exactly the root and the good page. -/
theorem C5_fetch_failure_continues :
    (∀ (uj : Str → Str → Str) (fetch : Str → Option Page)
        (wanted : List Str) (wd : Bool) (rd : Str) (fuel : Nat) (url : Str)
        (rest visited : List Str) (extracted : List Finding),
        fetch url = none →
        crawl_loop uj fetch wanted wd rd (fuel + 1) (url :: rest)
            visited extracted
          = crawl_loop uj fetch wanted wd rd fuel rest visited extracted) ∧
    crawl urljoinAbs fetchC5 10 (pstr "http://a.com/") [] true
      = ([pstr "http://a.com/", pstr "http://a.com/b"], []) := by
  refine ⟨?_, by decide⟩
  intro uj fetch wanted wd rd fuel url rest visited extracted h
  simp only [crawl_loop, h]

/-- C6, the code at the failing input: the claim's formula is ten times the
slash count of the scheme-stripped url plus the text length, with stripping
a no-op on urls without the prefix; `rank_link` instead runs the buggy
`strip_http_request`, which chops seven characters off such urls. On
`("//a.com/x", "")` the code ranks 10 while the claimed formula gives 30;
on urls that do carry the prefix the two agree. -/
theorem C6_rank_divergence :
    rank_link (pstr "//a.com/x", []) = 10 ∧
    10 * (stripScheme_spec (pstr "//a.com/x")).count '/'
      + ([] : Str).length = 30 ∧
    rank_link (pstr "http://a.com/x/y", pstr "title") = 25 ∧
    10 * (stripScheme_spec (pstr "http://a.com/x/y")).count '/'
      + (pstr "title").length = 25 := by
  refine ⟨by decide, by decide, by decide, by decide⟩

/-- C9: on a body containing exactly `Call 555-123-4567 or (555) 123-4567`,
`extract_information` yields exactly two findings, both PHONE, carrying the
two literal matched strings, the plain form first (pattern order) — no
EMAIL or ADDRESS finding appears. -/
theorem C9_two_phone_findings (addr : Str) :
    extract_information addr (pstr "Call 555-123-4567 or (555) 123-4567")
      = [(addr, pstr "PHONE", pstr "555-123-4567"),
         (addr, pstr "PHONE", pstr "(555) 123-4567")] := rfl

/-- C10: the filter compares the reported Content-Type against each accepted
signature with string equality, so with `html` wanted only the verbatim
`text/html; charset=UTF-8` matches; a bare `text/html`, another casing or
another charset parameter all leave `content_matches` false and the page is
skipped: the crawl of a root reporting `text/html` visits nothing, while the
same root reporting the exact signature is visited. -/
theorem C10_exact_signature_only :
    content_matches [pstr "html"] (pstr "text/html") = some false ∧
    content_matches [pstr "html"] (pstr "Text/HTML; charset=UTF-8")
      = some false ∧
    content_matches [pstr "html"] (pstr "text/html; charset=utf-8")
      = some false ∧
    content_matches [pstr "html"] (pstr "text/html; charset=UTF-8")
      = some true ∧
    (crawl urljoinAbs fetchC10a 10 (pstr "http://a.com/") [pstr "html"]
        true).1 = [] ∧
    (crawl urljoinAbs fetchC10b 10 (pstr "http://a.com/") [pstr "html"]
        true).1 = [pstr "http://a.com/"] := by
  refine ⟨by decide, by decide, by decide, by decide, by decide, by decide⟩

end HW4

namespace HW4

/-- C7: under priority ordering a page's links are offered for enqueuing as
the stable rank-descending sort of the raw discovery order —
`parse_links_sorted` yields exactly the pairs of `parse_links` (a
permutation), in weakly decreasing rank, and within each rank value in the
original document order (for every rank `r`, the rank-`r` subsequences of
the two lists are equal). -/
theorem C7_sorted_stable (urljoin : Str → Str → Str) (root : Str)
    (anchors : List Anchor) :
    List.Perm (parse_links_sorted urljoin root anchors)
        (parse_links urljoin root anchors) ∧
    (parse_links_sorted urljoin root anchors).Pairwise
      (fun a b => rank_link b ≤ rank_link a) ∧
    ∀ r : Nat,
      (parse_links_sorted urljoin root anchors).filter
          (fun l => rank_link l == r)
        = (parse_links urljoin root anchors).filter
          (fun l => rank_link l == r) := by
  refine ⟨List.perm_insertionSort rankGE _,
    List.sorted_insertionSort rankGE _, ?_⟩
  intro r
  set L := parse_links urljoin root anchors with hLdef
  set p : Str × Str → Bool := fun l => rank_link l == r with hpdef
  have hmem : ∀ a ∈ L.filter p, rank_link a = r := by
    intro a ha
    have hpa := List.of_mem_filter ha
    rw [hpdef] at hpa
    simp only [beq_iff_eq] at hpa
    exact hpa
  have hpw : (L.filter p).Pairwise rankGE := by
    apply List.pairwise_of_forall_mem_list
    intro a ha b hb
    unfold rankGE
    rw [hmem a ha, hmem b hb]
  have hsub :
      List.Sublist (L.filter p) ((L.insertionSort rankGE).filter p) := by
    have h1 : List.Sublist (L.filter p) (L.insertionSort rankGE) :=
      List.sublist_insertionSort hpw (List.filter_sublist L)
    have h2 := h1.filter p
    have hall : ∀ a ∈ L.filter p, p a = true :=
      fun a ha => List.of_mem_filter ha
    rwa [List.filter_eq_self.mpr hall] at h2
  have hperm : List.Perm ((L.insertionSort rankGE).filter p) (L.filter p) :=
    (List.perm_insertionSort rankGE L).filter p
  have heq : L.filter p = (L.insertionSort rankGE).filter p :=
    hsub.eq_of_length hperm.length_eq.symm
  unfold parse_links_sorted
  rw [← hLdef]
  exact heq.symm

/-- C8, counterexample: the claim covers every string, including those that
are exactly the prefix with nothing after it, yet `is_http_request` demands
strict length beyond the prefix — on `"http://"` and `"https://"` (each of
which does begin with the respective prefix) it falls off the end returning
`None`, i.e. false. -/
theorem C8_counterexample :
    is_http_request (pstr "http://") = false ∧
    is_http_request (pstr "https://") = false ∧
    (pstr "http://").take 7 = pstr "http://" ∧
    (pstr "https://").take 8 = pstr "https://" := by
  refine ⟨by decide, by decide, by decide, by decide⟩

/-- C8 (amended): `is_http_request url` is true iff `url` begins with
`https://` and is strictly longer than eight characters, or begins with
`http://` and is strictly longer than seven — a string that is exactly a
prefix, with nothing after it, is rejected. -/
theorem C8_amended (url : Str) :
    is_http_request url = true ↔
      (url.take 8 = pstr "https://" ∧ url.length > 8) ∨
      (url.take 7 = pstr "http://" ∧ url.length > 7) := by
  unfold is_http_request
  constructor
  · intro h
    split at h
    · next hc =>
        simp only [Bool.and_eq_true, decide_eq_true_eq] at hc
        left
        exact ⟨by simpa using h, hc.1⟩
    · split at h
      · next _ hc2 =>
          right
          exact ⟨by simpa using h, by simpa using hc2⟩
      · cases h
  · intro h
    rcases h with ⟨ht, hl⟩ | ⟨ht, hl⟩
    · have h4 : url[4]? = some 's' := by
        have he : (url.take 8)[4]? = url[4]? :=
          List.getElem?_take_of_lt (by omega)
        rw [← he, ht]
        decide
      rw [if_pos]
      · simpa using ht
      · simp only [Bool.and_eq_true, decide_eq_true_eq, beq_iff_eq]
        exact ⟨hl, h4⟩
    · have h4 : url[4]? = some ':' := by
        have he : (url.take 7)[4]? = url[4]? :=
          List.getElem?_take_of_lt (by omega)
        rw [← he, ht]
        decide
      rw [if_neg, if_pos]
      · simpa using ht
      · simpa using hl
      · simp only [Bool.and_eq_true, decide_eq_true_eq, beq_iff_eq, h4]
        intro hcon
        cases hcon.2

end HW4
